import Mathlib

/-!
Verification of the memory-introspection core of `core/jni/android_os_Debug.cpp`.

We shallowly embed the three algorithmic parts of that file:

* `read_mapinfo` — the streaming smaps parser: header-line recognition
  (`sscanf("%lx-%lx %*s %*x %*x:%*x %*d%n", ...)`), mapping-name
  classification into heap categories, per-block statistic parsing
  (`"Size: %d kB"` and friends), the "looks like a new mapping" lookahead
  heuristic, the swappable-pss computation, and the per-category
  aggregation (including the Dalvik sub-heap double accumulation);
* `compareHeapRecords` / `dumpNativeHeap` — the allocation-record
  comparator and the report rendering;
* `android_os_Debug_getPssPid` — the single-pass pss/uss accumulator.

Modelling conventions:

* a line of input is a `List Char`, exactly as `fgets` returns it (the
  trailing `'\n'` byte is part of the line; `read_mapinfo` itself strips
  the last character of each header line, which we model by `stripLast`);
  the end of the list plays the role of the terminating NUL;
* C `unsigned` values parsed by `%d` are reduced modulo `2 ^ 32` (the
  32-bit unsigned container), and the unsigned subtraction inside the
  sharing-proportion computation wraps modulo `2 ^ 32`; the running
  totals are kept as unbounded naturals (the C totals are `int`
  accumulations whose overflow would be undefined behaviour);
* the `sharing_proportion` value in C is an `unsigned` integer division
  whose result passes through a `float`; a `float` represents these
  integers exactly below `2 ^ 24`, and we model the computation with
  exact integer arithmetic (the out-of-range float-to-unsigned cast,
  which is undefined behaviour in C, is modelled as wraparound);
* `sscanf`'s `%lx` is modelled with `strtoul`'s shape: whitespace skip,
  optional sign, optional `0x`/`0X` (consumed only when a hex digit
  follows), then a nonempty digit run; values wrap modulo `2 ^ 64` (the
  64-bit `unsigned long`; a conversion that overflows its object is
  undefined behaviour for `scanf`, and the modulus matches `strtoul`'s
  wrap for negated inputs).  `%d` is modelled with its optional sign;
* `sscanf(line, "%lx-%lx %*s %*x %*x:%*x %*d%n", ...)` returns the
  number of *assignments* (2) as soon as both addresses are stored, so
  the `!= 2` skip test fires only when the leading `%lx-%lx` part fails;
  a header whose tail (`%*s %*x %*x:%*x %*d`) fails still returns 2 and
  is *not* skipped — `%n` is then never reached and `name_pos` keeps its
  previous value (uninitialized before the first fully-parsed header).
  We model `name_pos` as parser state, 0 initially; a stale offset past
  the current line's terminator would read indeterminate stale buffer
  bytes in C, which we model as an empty remainder.
-/

/-! ## Character-level scanners -/

/-- C `isspace` on the default locale. -/
def isspaceC (c : Char) : Bool :=
  c = ' ' || c = '\t' || c = '\n' || c = Char.ofNat 11 || c = Char.ofNat 12 || c = '\r'

def isHexDigitC (c : Char) : Bool :=
  c.isDigit || ('a' ≤ c && c ≤ 'f') || ('A' ≤ c && c ≤ 'F')

def hexDigitVal (c : Char) : Nat :=
  if c.isDigit then c.toNat - '0'.toNat
  else if 'a' ≤ c && c ≤ 'f' then c.toNat - 'a'.toNat + 10
  else c.toNat - 'A'.toNat + 10

/-- Abbreviation turning a string literal into the `List Char` we parse. -/
def ln (s : String) : List Char := s.toList

/-- A nonempty run of decimal digits, as `scanf` conversions read it. -/
def scanDigitsDec (l : List Char) : Option (Nat × List Char) :=
  let ds := l.takeWhile Char.isDigit
  if ds.isEmpty then none
  else some (ds.foldl (fun a c => a * 10 + (c.toNat - '0'.toNat)) 0, l.drop ds.length)

/-- `%d` stored into a 32-bit `unsigned`: whitespace skip, optional sign,
digits; a negative value wraps modulo `2 ^ 32`. -/
def scanInt (l : List Char) : Option (Nat × List Char) :=
  let r := l.dropWhile isspaceC
  match r with
  | '-' :: t => (scanDigitsDec t).map (fun p => ((2 ^ 32 - p.1 % 2 ^ 32) % 2 ^ 32, p.2))
  | '+' :: t => (scanDigitsDec t).map (fun p => (p.1 % 2 ^ 32, p.2))
  | _ => (scanDigitsDec r).map (fun p => (p.1 % 2 ^ 32, p.2))

/-- `%lx` (via `strtoul`): whitespace skip, optional sign, an optional
`0x`/`0X` prefix consumed only when a hex digit follows, then a nonempty
hex digit run; the 64-bit `unsigned long` wraps modulo `2 ^ 64` and a
`-` sign negates in that modulus. -/
def scanHex (l : List Char) : Option (Nat × List Char) :=
  let r := l.dropWhile isspaceC
  let (neg, r1) : Bool × List Char :=
    match r with
    | '-' :: t => (true, t)
    | '+' :: t => (false, t)
    | _ => (false, r)
  let r2 :=
    match r1 with
    | '0' :: x :: t =>
      if (x = 'x' || x = 'X') && isHexDigitC (t.headD ' ') then t else r1
    | _ => r1
  let ds := r2.takeWhile isHexDigitC
  if ds.isEmpty then none
  else
    let m := (ds.foldl (fun a c => a * 16 + hexDigitVal c) 0) % 2 ^ 64
    some (if neg then (2 ^ 64 - m) % 2 ^ 64 else m, r2.drop ds.length)

/-- A literal character directive of the `sscanf` format. -/
def expectChar (c : Char) (l : List Char) : Option (List Char) :=
  match l with
  | x :: r => if x = c then some r else none
  | [] => none

/-- `line[--len] = 0`: `read_mapinfo` chops the last character (normally the
newline) off every header line before scanning it. -/
def stripLast (l : List Char) : List Char := l.dropLast

/-- The leading `%lx-%lx` of the header format.  `sscanf` counts
assignments, so its result is `!= 2` — the skip condition of
`read_mapinfo` — exactly when this part fails; everything after it is
assignment-suppressed.  Returns `(start, end, remainder)`. -/
def parseHeaderAddrs (l : List Char) : Option (Nat × Nat × List Char) := do
  let (start, r1) ← scanHex l
  let r2 ← expectChar '-' r1
  let (endA, r3) ← scanHex r2
  some (start, endA, r3)

/-- The suppressed tail ` %*s %*x %*x:%*x %*d` of the header format,
through the `%n` that stores `name_pos`.  Returns the remainder after
the inode on a full match; a failure here leaves `sscanf`'s return value
at 2 (the block is *not* skipped) with `name_pos` unwritten. -/
def parseHeaderTail (r3 : List Char) : Option (List Char) := do
  let r4 := r3.dropWhile isspaceC
  let perm := r4.takeWhile (fun c => !isspaceC c)
  if perm.isEmpty then none
  else do
    let r5 := r4.drop perm.length
    let (_, r6) ← scanHex r5
    let (_, r7) ← scanHex r6
    let r8 ← expectChar ':' r7
    let (_, r9) ← scanHex r8
    let r10 := r9.dropWhile isspaceC
    let r11 := match r10 with
      | '-' :: t => t
      | '+' :: t => t
      | _ => r10
    let (_, r12) ← scanDigitsDec r11
    some r12

/-- The full fixed header pattern
`<hex-start>-<hex-end> <perm> <hex-offset> <hex>:<hex> <inode>`,
followed by the explicit `isspace` skip that locates the mapping name.
Returns `(start, end, name)` when the whole pattern matches. -/
def parseHeader (l : List Char) : Option (Nat × Nat × List Char) := do
  let (start, endA, r3) ← parseHeaderAddrs l
  let rest ← parseHeaderTail r3
  some (start, endA, rest.dropWhile isspaceC)

/-- The "looks like a new mapping" heuristic of the statistics loop:
`strlen(line) > 30 && line[8] == '-' && line[17] == ' '`, applied to the
raw line (newline still present). -/
def looksLikeHeader (l : List Char) : Bool :=
  decide (30 < l.length) && (l.getD 8 'x' == '-') && (l.getD 17 'x' == ' ')

/-! ## Heap categories and statistics -/

/-- The `HEAP_*` enumeration of `android_os_Debug.cpp`: sixteen exclusive
categories followed by the five Dalvik sub-heaps. -/
inductive Heap where
  | HEAP_UNKNOWN
  | HEAP_DALVIK
  | HEAP_NATIVE
  | HEAP_DALVIK_OTHER
  | HEAP_STACK
  | HEAP_CURSOR
  | HEAP_ASHMEM
  | HEAP_UNKNOWN_DEV
  | HEAP_SO
  | HEAP_JAR
  | HEAP_APK
  | HEAP_TTF
  | HEAP_DEX
  | HEAP_OAT
  | HEAP_ART
  | HEAP_UNKNOWN_MAP
  | HEAP_DALVIK_NORMAL
  | HEAP_DALVIK_LARGE
  | HEAP_DALVIK_LINEARALLOC
  | HEAP_DALVIK_ACCOUNTING
  | HEAP_DALVIK_CODE_CACHE
  deriving DecidableEq

open Heap

/-- `struct stats_t`: the six per-category running totals. -/
structure StatsT where
  pss : Nat
  swappablePss : Nat
  privateDirty : Nat
  sharedDirty : Nat
  privateClean : Nat
  sharedClean : Nat
  deriving DecidableEq

abbrev StatsMap := Heap → StatsT

def zeroStats : StatsMap := fun _ => ⟨0, 0, 0, 0, 0, 0⟩

/-- Heaps `0 ≤ i < _NUM_EXCLUSIVE_HEAP`: every mapping block is aggregated
under exactly one of these. -/
def exclusiveHeaps : List Heap :=
  [HEAP_UNKNOWN, HEAP_DALVIK, HEAP_NATIVE, HEAP_DALVIK_OTHER, HEAP_STACK,
   HEAP_CURSOR, HEAP_ASHMEM, HEAP_UNKNOWN_DEV, HEAP_SO, HEAP_JAR, HEAP_APK,
   HEAP_TTF, HEAP_DEX, HEAP_OAT, HEAP_ART, HEAP_UNKNOWN_MAP]

/-- Heaps `0 ≤ i < _NUM_CORE_HEAP`. -/
def coreHeaps : List Heap := [HEAP_UNKNOWN, HEAP_DALVIK, HEAP_NATIVE]

/-- Heaps `_NUM_CORE_HEAP ≤ i < _NUM_EXCLUSIVE_HEAP`: the categories that
`android_os_Debug_getDirtyPagesPid` folds into `HEAP_UNKNOWN`. -/
def otherHeaps : List Heap :=
  [HEAP_DALVIK_OTHER, HEAP_STACK, HEAP_CURSOR, HEAP_ASHMEM, HEAP_UNKNOWN_DEV,
   HEAP_SO, HEAP_JAR, HEAP_APK, HEAP_TTF, HEAP_DEX, HEAP_OAT, HEAP_ART,
   HEAP_UNKNOWN_MAP]

/-- The five Dalvik sub-heaps. -/
def dalvikSubHeaps : List Heap :=
  [HEAP_DALVIK_NORMAL, HEAP_DALVIK_LARGE, HEAP_DALVIK_LINEARALLOC,
   HEAP_DALVIK_ACCOUNTING, HEAP_DALVIK_CODE_CACHE]

/-! ## The mapping-name classifier (lines 187–258 of the source) -/

/-- The eleven accounting-structure prefixes of lines 194–204, combined
exactly as the `||` chain of `strstr(name, ...) == name` tests. -/
def isDalvikAccounting (name : List Char) : Bool :=
  (ln "/dev/ashmem/dalvik-mark").isPrefixOf name
  || (ln "/dev/ashmem/dalvik-allocspace alloc space live-bitmap").isPrefixOf name
  || (ln "/dev/ashmem/dalvik-allocspace alloc space mark-bitmap").isPrefixOf name
  || (ln "/dev/ashmem/dalvik-card table").isPrefixOf name
  || (ln "/dev/ashmem/dalvik-allocation stack").isPrefixOf name
  || (ln "/dev/ashmem/dalvik-live stack").isPrefixOf name
  || (ln "/dev/ashmem/dalvik-imagespace").isPrefixOf name
  || (ln "/dev/ashmem/dalvik-bitmap").isPrefixOf name
  || (ln "/dev/ashmem/dalvik-card-table").isPrefixOf name
  || (ln "/dev/ashmem/dalvik-mark-stack").isPrefixOf name
  || (ln "/dev/ashmem/dalvik-aux-structure").isPrefixOf name

/-- The inner `/dev/ashmem/dalvik-` decision of lines 190–215: default
category `HEAP_DALVIK_OTHER`, refined by suffix-specific rules. -/
def classifyDalvik (name : List Char) : Heap × Heap :=
  if (ln "/dev/ashmem/dalvik-LinearAlloc").isPrefixOf name then
    (HEAP_DALVIK_OTHER, HEAP_DALVIK_LINEARALLOC)
  else if isDalvikAccounting name then (HEAP_DALVIK_OTHER, HEAP_DALVIK_ACCOUNTING)
  else if (ln "/dev/ashmem/dalvik-large").isPrefixOf name then
    (HEAP_DALVIK, HEAP_DALVIK_LARGE)
  else if (ln "/dev/ashmem/dalvik-jit-code-cache").isPrefixOf name then
    (HEAP_DALVIK_OTHER, HEAP_DALVIK_CODE_CACHE)
  else (HEAP_DALVIK, HEAP_DALVIK_NORMAL)

/-- The `/dev/ashmem` branch of lines 189–222. -/
def classifyAshmem (name : List Char) : Heap × Heap × Bool :=
  if (ln "/dev/ashmem/dalvik-").isPrefixOf name then
    (let p := classifyDalvik name
    (p.1, p.2, false))
  else if (ln "/dev/ashmem/CursorWindow").isPrefixOf name then
    (HEAP_CURSOR, HEAP_UNKNOWN, false)
  else if (ln "/dev/ashmem/libc malloc").isPrefixOf name then
    (HEAP_NATIVE, HEAP_UNKNOWN, false)
  else (HEAP_ASHMEM, HEAP_UNKNOWN, false)

/-- The file-suffix rules of lines 229–250 (all swappable-typed). -/
def classifySuffix (name : List Char) : Option Heap :=
  if 3 < name.length && (ln ".so").isSuffixOf name then some HEAP_SO
  else if 4 < name.length && (ln ".jar").isSuffixOf name then some HEAP_JAR
  else if 4 < name.length && (ln ".apk").isSuffixOf name then some HEAP_APK
  else if 4 < name.length && (ln ".ttf").isSuffixOf name then some HEAP_TTF
  else if (4 < name.length && (ln ".dex").isSuffixOf name)
       || (5 < name.length && (ln ".odex").isSuffixOf name) then some HEAP_DEX
  else if 4 < name.length && (ln ".oat").isSuffixOf name then some HEAP_OAT
  else if 4 < name.length && (ln ".art").isSuffixOf name then some HEAP_ART
  else none

/-- Classification of a mapping name, taking the previous block's end
address and category for the trailing-bss rule.  Returns
`(whichHeap, subHeap, is_swappable)`. -/
def classify (name : List Char) (start prevEnd : Nat) (prevHeap : Heap) :
    Heap × Heap × Bool :=
  if (ln "[heap]").isPrefixOf name then (HEAP_NATIVE, HEAP_UNKNOWN, false)
  else if (ln "/dev/ashmem").isPrefixOf name then classifyAshmem name
  else if (ln "[anon:libc_malloc]").isPrefixOf name then (HEAP_NATIVE, HEAP_UNKNOWN, false)
  else if (ln "[stack").isPrefixOf name then (HEAP_STACK, HEAP_UNKNOWN, false)
  else if (ln "/dev/").isPrefixOf name then (HEAP_UNKNOWN_DEV, HEAP_UNKNOWN, false)
  else
    match classifySuffix name with
    | some h => (h, HEAP_UNKNOWN, true)
    | none =>
      if (ln "[anon:").isPrefixOf name then (HEAP_UNKNOWN, HEAP_UNKNOWN, false)
      else if 0 < name.length then (HEAP_UNKNOWN_MAP, HEAP_UNKNOWN, false)
      else if start = prevEnd ∧ prevHeap = HEAP_SO then (HEAP_SO, HEAP_UNKNOWN, false)
      else (HEAP_UNKNOWN, HEAP_UNKNOWN, false)

/-! ## The parser state -/

/-- The local variables of `read_mapinfo` that live across loop
iterations.  The numeric statistics are deliberately *not* reset between
blocks, exactly as in the C code; `name_pos` is likewise a plain local
that keeps its value whenever `%n` is not reached (it is uninitialized
in C before the first fully-parsed header; we model that indeterminate
start as 0). -/
structure Vars where
  size : Nat
  resident : Nat
  pss : Nat
  shared_clean : Nat
  shared_dirty : Nat
  private_clean : Nat
  private_dirty : Nat
  referenced : Nat
  endAddr : Nat
  name_pos : Nat
  whichHeap : Heap
  subHeap : Heap
  is_swappable : Bool
  skip : Bool
  deriving DecidableEq

def initVars : Vars :=
  { size := 0, resident := 0, pss := 0, shared_clean := 0, shared_dirty := 0,
    private_clean := 0, private_dirty := 0, referenced := 0, endAddr := 0,
    name_pos := 0, whichHeap := HEAP_UNKNOWN, subHeap := HEAP_UNKNOWN,
    is_swappable := false, skip := false }

/-- Top of the outer `while (!done)` loop: save `prevHeap`/`prevEnd`,
reset the per-block classification state, and scan the (already
stripped) header line.  The block is skipped exactly when the leading
`%lx-%lx` fails (`sscanf` returns `!= 2`).  When both addresses parse
but the suppressed tail fails, `sscanf` still returns 2: the block is
*not* skipped, `%n` never stores, and the name is taken at the *stale*
`name_pos` offset into the current line (a stale offset past the line's
terminator would read indeterminate buffer bytes in C; we model that
remainder as empty).  The `isspace` advance then updates `name_pos` in
either case, exactly as the C loop mutates it. -/
def startBlock (v : Vars) (l : List Char) : Vars :=
  match parseHeaderAddrs l with
  | none =>
    { v with skip := true, whichHeap := HEAP_UNKNOWN, subHeap := HEAP_UNKNOWN,
             is_swappable := false }
  | some (start, endA, r3) =>
    let name :=
      match parseHeaderTail r3 with
      | some rest => rest.dropWhile isspaceC
      | none => (l.drop v.name_pos).dropWhile isspaceC
    let c := classify name start v.endAddr v.whichHeap
    { v with skip := false, whichHeap := c.1, subHeap := c.2.1,
             is_swappable := c.2.2, endAddr := endA,
             name_pos := l.length - name.length }

def sizeKey : List Char := ln "Size:"
def rssKey : List Char := ln "Rss:"
def pssKey : List Char := ln "Pss:"
def sharedCleanKey : List Char := ln "Shared_Clean:"
def sharedDirtyKey : List Char := ln "Shared_Dirty:"
def privateCleanKey : List Char := ln "Private_Clean:"
def privateDirtyKey : List Char := ln "Private_Dirty:"
def referencedKey : List Char := ln "Referenced:"

/-- `sscanf(line, "<Key:> %d kB", &temp) == 1`: the literal key must match
at the start of the line and an integer must follow; the trailing `" kB"`
never affects the return value because the assignment already
happened. -/
def scanKV (key : List Char) (l : List Char) : Option Nat :=
  if key.isPrefixOf l then (scanInt (l.drop key.length)).map Prod.fst else none

/-- Whether one of the eight recognized statistic patterns matches. -/
def isStatLine (l : List Char) : Bool :=
  (scanKV sizeKey l).isSome || (scanKV rssKey l).isSome || (scanKV pssKey l).isSome
  || (scanKV sharedCleanKey l).isSome || (scanKV sharedDirtyKey l).isSome
  || (scanKV privateCleanKey l).isSome || (scanKV privateDirtyKey l).isSome
  || (scanKV referencedKey l).isSome

/-- The `else if` chain of the statistics loop, in source order. -/
def applyStatLine (l : List Char) (v : Vars) : Vars :=
  match scanKV sizeKey l with
  | some t => { v with size := t }
  | none =>
  match scanKV rssKey l with
  | some t => { v with resident := t }
  | none =>
  match scanKV pssKey l with
  | some t => { v with pss := t }
  | none =>
  match scanKV sharedCleanKey l with
  | some t => { v with shared_clean := t }
  | none =>
  match scanKV sharedDirtyKey l with
  | some t => { v with shared_dirty := t }
  | none =>
  match scanKV privateCleanKey l with
  | some t => { v with private_clean := t }
  | none =>
  match scanKV privateDirtyKey l with
  | some t => { v with private_dirty := t }
  | none =>
  match scanKV referencedKey l with
  | some t => { v with referenced := t }
  | none => v

/-- The swappable-pss computation of lines 294–301: when the mapping is
swappable-typed and `pss > 0`, `sharing_proportion` is the *unsigned
integer* quotient `(pss - private_clean - private_dirty) / (shared_clean
+ shared_dirty)` (the subtraction wraps modulo `2 ^ 32`), taken as `0`
when both shared counts are zero, and `swappable_pss = sharing *
shared_clean + private_clean` stored into a 32-bit unsigned.  In C the
quotient passes through a `float`, which is exact for integers below
`2 ^ 24`: when `private_clean + private_dirty ≤ pss < 2 ^ 24` every
intermediate is bounded by `pss` (the floor quotient satisfies
`sharing * shared_clean + private_clean ≤ pss`), so this exact-integer
model is bit-faithful on that domain; outside it the float rounds and
the out-of-range cast is undefined behaviour, and no claim theorem
relies on this model there (`swappablePss_amended_thm` is stated on the
exact domain). -/
def swappablePssOf (sw : Bool) (pss sc sd pc pd : Nat) : Nat :=
  if sw = true ∧ 0 < pss then
    (let sharing : Nat :=
      if 0 < sc ∨ 0 < sd then
        ((((pss : Int) - (pc : Int) - (pd : Int)) % (2 ^ 32)).toNat) / (sc + sd)
      else 0
    (sharing * sc + pc) % 2 ^ 32)
  else 0

/-- Add the six metrics of a completed block into one category's totals. -/
def addTo (s : StatsT) (pss spss pd sd pc sc : Nat) : StatsT :=
  ⟨s.pss + pss, s.swappablePss + spss, s.privateDirty + pd,
   s.sharedDirty + sd, s.privateClean + pc, s.sharedClean + sc⟩

def accumulate (stats : StatsMap) (h : Heap) (pss spss pd sd pc sc : Nat) : StatsMap :=
  fun h' => if h' = h then addTo (stats h') pss spss pd sd pc sc else stats h'

/-- Block completion (lines 293–317): skipped blocks contribute nothing;
otherwise the six metrics are added under `whichHeap`, and additionally
under `subHeap` when the primary category is Dalvik. -/
def finishBlock (stats : StatsMap) (v : Vars) : StatsMap :=
  if v.skip then stats
  else
    let spss := swappablePssOf v.is_swappable v.pss v.shared_clean v.shared_dirty
      v.private_clean v.private_dirty
    let s1 := accumulate stats v.whichHeap v.pss spss v.private_dirty v.shared_dirty
      v.private_clean v.shared_clean
    if v.whichHeap = HEAP_DALVIK ∨ v.whichHeap = HEAP_DALVIK_OTHER then
      accumulate s1 v.subHeap v.pss spss v.private_dirty v.shared_dirty
        v.private_clean v.shared_clean
    else s1

/-- The fused outer/inner loop of `read_mapinfo`: statistic lines update
the running variables, a line that looks like a new mapping finalizes
the current block and becomes the next header (one line of lookahead),
any other line is ignored, and end-of-stream finalizes the last block. -/
def mapLoop : StatsMap → Vars → List (List Char) → StatsMap
  | stats, v, [] => finishBlock stats v
  | stats, v, l :: rest =>
    if isStatLine l then mapLoop stats (applyStatLine l v) rest
    else if looksLikeHeader l then
      mapLoop (finishBlock stats v) (startBlock v (stripLast l)) rest
    else mapLoop stats v rest

/-- `read_mapinfo(fp, stats)`: the first line (if any) is scanned as a
header directly; an empty first line triggers the `len < 1` bail-out. -/
def read_mapinfo (stats : StatsMap) (lines : List (List Char)) : StatsMap :=
  match lines with
  | [] => stats
  | l :: rest =>
    if l.length < 1 then stats
    else mapLoop stats (startBlock initVars (stripLast l)) rest

/-- The fold of `android_os_Debug_getDirtyPagesPid` (lines 343–350):
every non-core exclusive category is added into `HEAP_UNKNOWN`. -/
def foldIntoUnknown (stats : StatsMap) : StatsMap :=
  fun h =>
    if h = HEAP_UNKNOWN then
      otherHeaps.foldl
        (fun acc h' => addTo acc (stats h').pss (stats h').swappablePss
          (stats h').privateDirty (stats h').sharedDirty
          (stats h').privateClean (stats h').sharedClean)
        (stats HEAP_UNKNOWN)
    else stats h

/-! ## Ghost functions used to state the parser claims -/

/-- `∑` helper: total of one field over a list of categories. -/
def sumPss (stats : StatsMap) (hs : List Heap) : Nat :=
  (hs.map (fun h => (stats h).pss)).sum

/-- The statistic lines of a block update the variables; other in-block
lines do nothing (mirrors the in-block behaviour of `mapLoop`). -/
def runLines (v : Vars) (sls : List (List Char)) : Vars :=
  sls.foldl (fun v s => if isStatLine s then applyStatLine s v else v) v

/-- The pss value each completed, non-skipped block adds to its category,
in stream order (mirrors `mapLoop`). -/
def blockPssLoop : Vars → List (List Char) → List Nat
  | v, [] => if v.skip then [] else [v.pss]
  | v, l :: rest =>
    if isStatLine l then blockPssLoop (applyStatLine l v) rest
    else if looksLikeHeader l then
      (if v.skip then [] else [v.pss]) ++ blockPssLoop (startBlock v (stripLast l)) rest
    else blockPssLoop v rest

def blockPssValues (lines : List (List Char)) : List Nat :=
  match lines with
  | [] => []
  | l :: rest =>
    if l.length < 1 then []
    else blockPssLoop (startBlock initVars (stripLast l)) rest

/-- Every block header of the input parses (mirrors `mapLoop`'s block
boundaries). -/
def noMalformedLoop : List (List Char) → Bool
  | [] => true
  | l :: rest =>
    if isStatLine l then noMalformedLoop rest
    else if looksLikeHeader l then
      (parseHeader (stripLast l)).isSome && noMalformedLoop rest
    else noMalformedLoop rest

def noMalformed (lines : List (List Char)) : Bool :=
  match lines with
  | [] => true
  | l :: rest =>
    if l.length < 1 then true
    else (parseHeader (stripLast l)).isSome && noMalformedLoop rest

/-! ## Allocation records (`compareHeapRecords`, `dumpNativeHeap`) -/

/-- `SIZE_FLAG_ZYGOTE_CHILD = (1 << 31)`. -/
def SIZE_FLAG_ZYGOTE_CHILD : Nat := 2 ^ 31

/-- `BACKTRACE_SIZE = 32`. -/
def BACKTRACE_SIZE : Nat := 32

/-- One decoded `get_malloc_leak_info` record: `size_t size`, `size_t
allocations`, `intptr_t backtrace[32]`.  Sizes are 32-bit `size_t`
values; backtrace entries are the signed `intptr_t` values the
comparator reads.  The C array always has 32 slots; a shorter list here
stands for a record whose remaining slots hold zero. -/
structure HeapRecord where
  size : Nat
  allocations : Nat
  bt : List Int
  deriving DecidableEq

/-- `size & SIZE_FLAG_ZYGOTE_CHILD`, as a flag, for 32-bit sizes. -/
def zygoteFlag (size : Nat) : Bool := decide (2 ^ 31 ≤ size)

/-- `size & ~SIZE_FLAG_ZYGOTE_CHILD`, for 32-bit sizes. -/
def zygoteCleared (size : Nat) : Nat := size % 2 ^ 31

/-- The backtrace loop of `compareHeapRecords`: walk both 32-slot arrays
in lockstep; equal nonzero entries continue, an equal zero entry ends
the walk with 0, the first unequal pair decides by signed comparison,
and exhausting the capacity yields 0. -/
def btCompareAux : List Int → List Int → Nat → Int
  | _, _, 0 => 0
  | b1, b2, n + 1 =>
    let a1 := b1.headD 0
    let a2 := b2.headD 0
    if a1 = a2 then (if a1 = 0 then 0 else btCompareAux b1.tail b2.tail n)
    else if a1 < a2 then -1 else 1

/-- The `qsort` callback `compareHeapRecords`: the raw `size` fields are
compared first (descending; note the zygote flag bit is *not* cleared
here), and equal sizes fall through to the backtrace walk. -/
def compareHeapRecords (r1 r2 : HeapRecord) : Int :=
  if r1.size < r2.size then 1
  else if r2.size < r1.size then -1
  else btCompareAux r1.bt r2.bt BACKTRACE_SIZE

/-- The lines `dumpNativeHeap` writes, one constructor per `fprintf`
shape (the textual formatting carries no algorithmic content). -/
inductive DumpLine where
  | guidance1
  | guidance2
  | guidance3
  | guidance4
  | headerV1
  | totalMemoryLine (n : Nat)
  | recordCountLine (n : Nat)
  | backtraceWarning (actual expected : Nat)
  | blank
  | record (zygote : Bool) (sizeCleared : Nat) (allocations : Nat) (bt : List Int)
  | mapsMarker
  | mapsContent (l : List Char)
  | couldNotOpenMaps
  | endMarker
  deriving DecidableEq

/-- The per-record print loop: up to `backtraceSize` entries, stopping at
the first zero. -/
def btDisplay (backtraceSize : Nat) (bt : List Int) : List Int :=
  (bt.take backtraceSize).takeWhile (fun a => a ≠ 0)

/-- `dumpNativeHeap`, as a function from the data supplied by
`get_malloc_leak_info` (absent when tracking is disabled) and the
mapping-listing source to the emitted report lines.  `qsort` leaves the
order of equal-comparing records unspecified; we fix an insertion sort
over the same comparator. -/
def dumpNativeHeap (info : Option (List HeapRecord)) (totalMemory backtraceSize : Nat)
    (maps : Option (List (List Char))) : List DumpLine :=
  match info with
  | none => [DumpLine.guidance1, DumpLine.guidance2, DumpLine.guidance3, DumpLine.guidance4]
  | some records =>
    [DumpLine.headerV1, DumpLine.totalMemoryLine totalMemory,
     DumpLine.recordCountLine records.length]
    ++ (if backtraceSize ≠ BACKTRACE_SIZE then
          [DumpLine.backtraceWarning backtraceSize BACKTRACE_SIZE] else [])
    ++ [DumpLine.blank]
    ++ (records.insertionSort (fun r1 r2 => compareHeapRecords r1 r2 ≤ 0)).map
        (fun r => DumpLine.record (zygoteFlag r.size) (zygoteCleared r.size)
          r.allocations (btDisplay backtraceSize r.bt))
    ++ [DumpLine.mapsMarker]
    ++ (match maps with
        | none => [DumpLine.couldNotOpenMaps]
        | some ls => ls.map DumpLine.mapsContent ++ [DumpLine.endMarker])

/-! ## `android_os_Debug_getPssPid` -/

def pssHdr : List Char := ln "Pss:"
def privateCleanHdr : List Char := ln "Private_Clean:"
def privateDirtyHdr : List Char := ln "Private_Dirty:"

/-- `atoi` after the skip loop `while (*c != 0 && (*c < '0' || *c > '9'))
c++`: advance to the first decimal digit (or the terminator) and read
the digit run.  The skip loop steps over a `'-'`, so the value is always
the non-negative digit run. -/
def atoiSkip (l : List Char) : Nat :=
  ((l.dropWhile (fun c => !c.isDigit)).takeWhile Char.isDigit).foldl
    (fun a c => a * 10 + (c.toNat - '0'.toNat)) 0

/-- One line of the `getPssPid` loop.  Note the `else if` condition is
`strncmp(line, "Private_Clean:", 14) || strncmp(line, "Private_Dirty:",
14)` — the raw `strncmp` results (zero on match) combined with `||` —
so it reads "not both prefixes match".  For a line shorter than 14
characters C scans the stale buffer bytes past the terminator; we model
that indeterminate tail as empty. -/
def getPssLineStep (l : List Char) (pss uss : Nat) : Nat × Nat :=
  if l.headD (Char.ofNat 0) = 'P' then
    (if pssHdr.isPrefixOf l then (pss + atoiSkip (l.drop 4), uss)
     else if !(privateCleanHdr.isPrefixOf l) || !(privateDirtyHdr.isPrefixOf l) then
       (pss, uss + atoiSkip (l.drop 14))
     else (pss, uss))
  else (pss, uss)

/-- The whole `getPssPid` accumulation over the stream: returns
`(pss, uss)`. -/
def getPssParse (lines : List (List Char)) : Nat × Nat :=
  lines.foldl (fun acc l => getPssLineStep l acc.1 acc.2) (0, 0)

/-! ## Definitions taken from the specification's wording -/

/-- Modelled from the spec: the swappable-pss formula exactly as claim C2
words it, with `−` and `/` read as exact rational arithmetic (`sharing`
is a proportion).  Used to compare the claimed formula against the
code's computation. -/
def swappablePssClaim (sw : Bool) (pss sc sd pc pd : Nat) : ℚ :=
  if sw = true ∧ 0 < pss then
    (let sharing : ℚ :=
      if 0 < sc + sd then ((pss : ℚ) - (pc : ℚ) - (pd : ℚ)) / ((sc : ℚ) + (sd : ℚ)) else 0
    sharing * (sc : ℚ) + (pc : ℚ))
  else 0

/-- The amended C2 formula: the same shape with the division read as
truncating unsigned integer division and the result stored into a
32-bit unsigned; stated for blocks with `private_clean + private_dirty ≤
pss` (otherwise the C subtraction wraps modulo `2 ^ 32`). -/
def swappablePssAmended (sw : Bool) (pss sc sd pc pd : Nat) : Nat :=
  if sw = true ∧ 0 < pss then
    (let sharing : Nat := if 0 < sc + sd then (pss - pc - pd) / (sc + sd) else 0
    (sharing * sc + pc) % 2 ^ 32)
  else 0

/-- The 32-slot lexicographic reference order used to state claim C6:
zero out everything from the first zero entry on (zero terminates a
backtrace), then compare position by position. -/
def normZero : List Int → List Int
  | [] => []
  | a :: r => if a = 0 then List.replicate (r.length + 1) 0 else a :: normZero r

def lexAux : List Int → List Int → Nat → Int
  | _, _, 0 => 0
  | b1, b2, n + 1 =>
    let a1 := b1.headD 0
    let a2 := b2.headD 0
    if a1 < a2 then -1 else if a2 < a1 then 1 else lexAux b1.tail b2.tail n

def lexCmp32 (b1 b2 : List Int) : Int := lexAux b1 b2 BACKTRACE_SIZE

/-! ## Concrete example inputs -/

/-- The spec's §8 example mapping: `/system/lib/libfoo.so` with Pss=100,
Private_Clean=20, Private_Dirty=10, Shared_Clean=50, Shared_Dirty=20. -/
def libfooInput : List (List Char) :=
  [ln "12c00000-12d00000 r-xp 00000000 b3:19 1234   /system/lib/libfoo.so\n",
   ln "Size:               1024 kB\n",
   ln "Rss:                 170 kB\n",
   ln "Pss:                 100 kB\n",
   ln "Shared_Clean:         50 kB\n",
   ln "Shared_Dirty:         20 kB\n",
   ln "Private_Clean:        20 kB\n",
   ln "Private_Dirty:        10 kB\n",
   ln "Referenced:          170 kB\n"]

/-- A three-block smaps stream: a shared object, a Dalvik heap segment
and a `[heap]` block (the last one leaves most statistics to carry
over). -/
def multiInput : List (List Char) :=
  [ln "12c00000-12d00000 r-xp 00000000 b3:19 1234   /system/lib/libfoo.so\n",
   ln "Pss:                 100 kB\n",
   ln "Shared_Clean:         50 kB\n",
   ln "Shared_Dirty:         20 kB\n",
   ln "Private_Clean:        20 kB\n",
   ln "Private_Dirty:        10 kB\n",
   ln "40000000-40100000 rw-p 00000000 00:04 3456   /dev/ashmem/dalvik-heap (deleted)\n",
   ln "Pss:                  30 kB\n",
   ln "Shared_Clean:          0 kB\n",
   ln "Shared_Dirty:          0 kB\n",
   ln "Private_Clean:         0 kB\n",
   ln "Private_Dirty:        30 kB\n",
   ln "50000000-50100000 rw-p 00000000 00:00 0 [heap]\n",
   ln "Pss:                   7 kB\n"]

/-- `multiInput` with only the first block's `Size:` line changed; the
second block omits `Size:`, so the carried value differs between the
two runs. -/
def sizeInputA : List (List Char) :=
  [ln "12c00000-12d00000 r-xp 00000000 b3:19 1234   /system/lib/libfoo.so\n",
   ln "Size:                100 kB\n",
   ln "Pss:                  10 kB\n",
   ln "50000000-50100000 rw-p 00000000 00:00 0 [heap]\n",
   ln "Pss:                   7 kB\n"]

def sizeInputB : List (List Char) :=
  [ln "12c00000-12d00000 r-xp 00000000 b3:19 1234   /system/lib/libfoo.so\n",
   ln "Size:                999 kB\n",
   ln "Pss:                  10 kB\n",
   ln "50000000-50100000 rw-p 00000000 00:00 0 [heap]\n",
   ln "Pss:                   7 kB\n"]

/-- All 21 slots of the aggregator array, in enumeration order. -/
def allHeaps : List Heap := exclusiveHeaps ++ dalvikSubHeaps

/-- The parser state at the completion of the spec's §8 example block
(`/system/lib/libfoo.so`, Pss=100, Shared_Clean=50, Shared_Dirty=20,
Private_Clean=20, Private_Dirty=10). -/
def soBlockVars : Vars :=
  { size := 0, resident := 0, pss := 100, shared_clean := 50, shared_dirty := 20,
    private_clean := 20, private_dirty := 10, referenced := 0, endAddr := 0,
    name_pos := 0, whichHeap := Heap.HEAP_SO, subHeap := Heap.HEAP_UNKNOWN,
    is_swappable := true, skip := false }

/-- A swappable block state exhibiting the integer division:
pss = 10, shared_clean = 3, everything else zero. -/
def soBlockVars10 : Vars :=
  { size := 0, resident := 0, pss := 10, shared_clean := 3, shared_dirty := 0,
    private_clean := 0, private_dirty := 0, referenced := 0, endAddr := 0,
    name_pos := 0, whichHeap := Heap.HEAP_SO, subHeap := Heap.HEAP_UNKNOWN,
    is_swappable := true, skip := false }

/-- The invariant the parser state maintains: the primary category is one
of the sixteen exclusive heaps, and when it is a Dalvik category the
sub-heap is one of the five Dalvik sub-heaps (hence distinct from every
exclusive heap). -/
def VarInv (v : Vars) : Prop :=
  v.whichHeap ∈ exclusiveHeaps ∧
  ((v.whichHeap = Heap.HEAP_DALVIK ∨ v.whichHeap = Heap.HEAP_DALVIK_OTHER) →
    v.subHeap ∈ dalvikSubHeaps)

/-! ## Helper lemmas -/

theorem classifyDalvik_inv (name : List Char) :
    ((classifyDalvik name).1 = Heap.HEAP_DALVIK ∨
      (classifyDalvik name).1 = Heap.HEAP_DALVIK_OTHER) ∧
    (classifyDalvik name).2 ∈ dalvikSubHeaps := by
  unfold classifyDalvik
  repeat' split
  all_goals decide

theorem classifyAshmem_inv (name : List Char) :
    (classifyAshmem name).1 ∈ exclusiveHeaps ∧
    (((classifyAshmem name).1 = Heap.HEAP_DALVIK ∨
      (classifyAshmem name).1 = Heap.HEAP_DALVIK_OTHER) →
      (classifyAshmem name).2.1 ∈ dalvikSubHeaps) := by
  unfold classifyAshmem
  split
  · obtain ⟨h1, h2⟩ := classifyDalvik_inv name
    refine ⟨?_, fun _ => h2⟩
    rcases h1 with h | h <;> rw [h] <;> decide
  · repeat' split
    all_goals decide

theorem classifySuffix_mem (name : List Char) (h : Heap)
    (hs : classifySuffix name = some h) :
    h ∈ exclusiveHeaps ∧ h ≠ Heap.HEAP_DALVIK ∧ h ≠ Heap.HEAP_DALVIK_OTHER := by
  unfold classifySuffix at hs
  repeat' split at hs
  all_goals first
  | (injection hs with hs; subst hs; decide)
  | exact absurd hs (by simp)

theorem classify_inv (name : List Char) (start prevEnd : Nat) (prevHeap : Heap) :
    (classify name start prevEnd prevHeap).1 ∈ exclusiveHeaps ∧
    (((classify name start prevEnd prevHeap).1 = Heap.HEAP_DALVIK ∨
      (classify name start prevEnd prevHeap).1 = Heap.HEAP_DALVIK_OTHER) →
      (classify name start prevEnd prevHeap).2.1 ∈ dalvikSubHeaps) := by
  unfold classify
  split
  · decide
  split
  · exact classifyAshmem_inv name
  split
  · decide
  split
  · decide
  split
  · decide
  cases hcs : classifySuffix name with
  | none =>
    simp only [hcs]
    repeat' split
    all_goals decide
  | some h =>
    obtain ⟨hm, hne1, hne2⟩ := classifySuffix_mem name h hcs
    simp only [hcs]
    refine ⟨hm, fun hc => ?_⟩
    rcases hc with hc | hc
    · exact absurd hc hne1
    · exact absurd hc hne2

theorem startBlock_inv (v : Vars) (l : List Char) : VarInv (startBlock v l) := by
  unfold startBlock
  cases h : parseHeaderAddrs l with
  | none => simp [VarInv, exclusiveHeaps]
  | some r =>
    obtain ⟨start, endA, r3⟩ := r
    cases ht : parseHeaderTail r3 with
    | none =>
      have hc := classify_inv ((l.drop v.name_pos).dropWhile isspaceC)
        start v.endAddr v.whichHeap
      simpa [VarInv, ht] using hc
    | some rest =>
      have hc := classify_inv (rest.dropWhile isspaceC) start v.endAddr v.whichHeap
      simpa [VarInv, ht] using hc

theorem applyStatLine_heaps (l : List Char) (v : Vars) :
    (applyStatLine l v).whichHeap = v.whichHeap ∧
    (applyStatLine l v).subHeap = v.subHeap ∧
    (applyStatLine l v).skip = v.skip ∧
    (applyStatLine l v).is_swappable = v.is_swappable := by
  unfold applyStatLine
  repeat' split
  all_goals exact ⟨rfl, rfl, rfl, rfl⟩

theorem applyStatLine_inv (l : List Char) (v : Vars) (h : VarInv v) :
    VarInv (applyStatLine l v) := by
  obtain ⟨h1, h2, h3, h4⟩ := applyStatLine_heaps l v
  unfold VarInv at *
  rw [h1, h2]
  exact h

theorem count_excl_one (h : Heap) (hm : h ∈ exclusiveHeaps) :
    exclusiveHeaps.count h = 1 := by
  fin_cases hm <;> decide

theorem count_excl_sub_zero (h : Heap) (hm : h ∈ dalvikSubHeaps) :
    exclusiveHeaps.count h = 0 := by
  fin_cases hm <;> decide

theorem sumPss_accumulate (hs : List Heap) (stats : StatsMap) (h : Heap)
    (a b c d e f : Nat) :
    sumPss (accumulate stats h a b c d e f) hs = sumPss stats hs + hs.count h * a := by
  induction hs with
  | nil => simp [sumPss]
  | cons h' t ih =>
    simp only [sumPss, List.map_cons, List.sum_cons] at ih ⊢
    rw [ih, List.count_cons]
    by_cases hh : h' = h
    · subst hh
      simp only [accumulate, if_pos rfl, addTo, beq_self_eq_true, if_pos]
      have hm : (t.count h' + 1) * a = t.count h' * a + a := by ring
      rw [hm]
      omega
    · have hb : (h' == h) = false := by
        simp only [beq_eq_false_iff_ne, ne_eq]
        exact hh
      simp only [accumulate, if_neg hh, hb, Bool.false_eq_true, if_false, Nat.add_zero]
      omega

theorem finishBlock_sumPss (stats : StatsMap) (v : Vars) (hv : VarInv v) :
    sumPss (finishBlock stats v) exclusiveHeaps =
      sumPss stats exclusiveHeaps + (if v.skip then 0 else v.pss) := by
  unfold finishBlock
  by_cases hs : v.skip
  · simp [hs]
  · simp only [Bool.not_eq_true] at hs
    simp only [hs, Bool.false_eq_true, if_false]
    split
    next hd =>
      rw [sumPss_accumulate, sumPss_accumulate,
        count_excl_one _ hv.1, count_excl_sub_zero _ (hv.2 hd)]
      ring
    next hd =>
      rw [sumPss_accumulate, count_excl_one _ hv.1]
      ring

theorem mapLoop_sumPss (lines : List (List Char)) :
    ∀ (stats : StatsMap) (v : Vars), VarInv v →
    sumPss (mapLoop stats v lines) exclusiveHeaps =
      sumPss stats exclusiveHeaps + (blockPssLoop v lines).sum := by
  induction lines with
  | nil =>
    intro stats v hv
    simp only [mapLoop, blockPssLoop]
    rw [finishBlock_sumPss stats v hv]
    split <;> simp
  | cons l rest ih =>
    intro stats v hv
    simp only [mapLoop, blockPssLoop]
    by_cases h1 : isStatLine l
    · simp only [h1, if_true]
      exact ih _ _ (applyStatLine_inv l v hv)
    · simp only [h1, Bool.false_eq_true, if_false]
      by_cases h2 : looksLikeHeader l
      · simp only [h2, if_true]
        rw [ih _ _ (startBlock_inv v (stripLast l)), finishBlock_sumPss stats v hv,
          List.sum_append]
        split <;> (simp; try ring)
      · simp only [h2, Bool.false_eq_true, if_false]
        exact ih _ _ hv

theorem sumPss_foldIntoUnknown (stats : StatsMap) :
    sumPss (foldIntoUnknown stats) coreHeaps = sumPss stats exclusiveHeaps := by
  simp [foldIntoUnknown, coreHeaps, exclusiveHeaps, otherHeaps, sumPss, addTo]
  omega

/-- C1: for every input stream whose blocks all have well-formed headers,
after the parse completes the sum of the per-category pss totals across
the full category set (the sixteen exclusive heap categories; the five
Dalvik sub-heaps are duplicate side accounts of their parent category)
equals the sum of the pss values of every individual mapping block, and
the same total is preserved by the `getDirtyPagesPid` fold of the
non-core categories into `HEAP_UNKNOWN` (summing the three core
categories afterwards). -/
theorem read_mapinfo_pss_conservation (lines : List (List Char))
    (hwf : noMalformed lines = true) :
    sumPss (read_mapinfo zeroStats lines) exclusiveHeaps = (blockPssValues lines).sum ∧
    sumPss (foldIntoUnknown (read_mapinfo zeroStats lines)) coreHeaps =
      (blockPssValues lines).sum := by
  have hz : sumPss zeroStats exclusiveHeaps = 0 := by decide
  have h1 : sumPss (read_mapinfo zeroStats lines) exclusiveHeaps
      = (blockPssValues lines).sum := by
    unfold read_mapinfo blockPssValues
    cases lines with
    | nil => exact hz
    | cons l rest =>
      by_cases hl : l.length < 1
      · simp only [hl, if_true, List.sum_nil]
        exact hz
      · simp only [hl, if_false]
        rw [mapLoop_sumPss rest zeroStats _ (startBlock_inv initVars (stripLast l)), hz]
        ring
  exact ⟨h1, by rw [sumPss_foldIntoUnknown]; exact h1⟩

theorem read_mapinfo_pss_conservation_witness :
    noMalformed multiInput = true ∧
    (sumPss (read_mapinfo zeroStats multiInput) exclusiveHeaps
        = (blockPssValues multiInput).sum ∧
      sumPss (foldIntoUnknown (read_mapinfo zeroStats multiInput)) coreHeaps
        = (blockPssValues multiInput).sum) :=
  ⟨by decide, read_mapinfo_pss_conservation multiInput (by decide)⟩

theorem runLines_cons (v : Vars) (s : List Char) (t : List (List Char)) :
    runLines v (s :: t) = runLines (if isStatLine s then applyStatLine s v else v) t := rfl

theorem runLines_ctrl (sls : List (List Char)) : ∀ v : Vars,
    (runLines v sls).whichHeap = v.whichHeap ∧ (runLines v sls).subHeap = v.subHeap ∧
    (runLines v sls).skip = v.skip ∧ (runLines v sls).is_swappable = v.is_swappable := by
  induction sls with
  | nil => intro v; exact ⟨rfl, rfl, rfl, rfl⟩
  | cons s t ih =>
    intro v
    rw [runLines_cons]
    by_cases h1 : isStatLine s
    · simp only [h1, if_true]
      obtain ⟨a1, a2, a3, a4⟩ := applyStatLine_heaps s v
      obtain ⟨b1, b2, b3, b4⟩ := ih (applyStatLine s v)
      exact ⟨b1.trans a1, b2.trans a2, b3.trans a3, b4.trans a4⟩
    · simp only [h1, Bool.false_eq_true, if_false]
      exact ih v

theorem applyStatLine_fields (l : List Char) (v : Vars) :
    ((scanKV sizeKey l).isNone = true → (applyStatLine l v).size = v.size) ∧
    ((scanKV rssKey l).isNone = true → (applyStatLine l v).resident = v.resident) ∧
    ((scanKV pssKey l).isNone = true → (applyStatLine l v).pss = v.pss) ∧
    ((scanKV sharedCleanKey l).isNone = true →
      (applyStatLine l v).shared_clean = v.shared_clean) ∧
    ((scanKV sharedDirtyKey l).isNone = true →
      (applyStatLine l v).shared_dirty = v.shared_dirty) ∧
    ((scanKV privateCleanKey l).isNone = true →
      (applyStatLine l v).private_clean = v.private_clean) ∧
    ((scanKV privateDirtyKey l).isNone = true →
      (applyStatLine l v).private_dirty = v.private_dirty) ∧
    ((scanKV referencedKey l).isNone = true →
      (applyStatLine l v).referenced = v.referenced) := by
  unfold applyStatLine
  repeat' split
  all_goals simp_all

theorem runLines_field (f : Vars → Nat) (key : List Char)
    (hf : ∀ (l : List Char) (v : Vars),
      (scanKV key l).isNone = true → f (applyStatLine l v) = f v)
    (sls : List (List Char)) :
    ∀ v : Vars, (∀ s ∈ sls, (scanKV key s).isNone = true) → f (runLines v sls) = f v := by
  induction sls with
  | nil => intro v _; rfl
  | cons s t ih =>
    intro v hc
    rw [runLines_cons]
    by_cases h1 : isStatLine s
    · simp only [h1, if_true]
      rw [ih _ (fun x hx => hc x (List.mem_cons_of_mem _ hx))]
      exact hf s v (hc s (List.mem_cons_self s t))
    · simp only [h1, Bool.false_eq_true, if_false]
      exact ih v (fun x hx => hc x (List.mem_cons_of_mem _ hx))

theorem startBlock_numeric (v : Vars) (l : List Char) :
    (startBlock v l).size = v.size ∧ (startBlock v l).resident = v.resident ∧
    (startBlock v l).pss = v.pss ∧ (startBlock v l).shared_clean = v.shared_clean ∧
    (startBlock v l).shared_dirty = v.shared_dirty ∧
    (startBlock v l).private_clean = v.private_clean ∧
    (startBlock v l).private_dirty = v.private_dirty ∧
    (startBlock v l).referenced = v.referenced := by
  unfold startBlock
  cases hp : parseHeaderAddrs l with
  | none => exact ⟨rfl, rfl, rfl, rfl, rfl, rfl, rfl, rfl⟩
  | some r =>
    obtain ⟨a, b, c⟩ := r
    exact ⟨rfl, rfl, rfl, rfl, rfl, rfl, rfl, rfl⟩

theorem parseHeader_addrs_isSome (l : List Char)
    (h : (parseHeader l).isSome = true) : (parseHeaderAddrs l).isSome = true := by
  unfold parseHeader at h
  cases hp : parseHeaderAddrs l with
  | none => rw [hp] at h; simp at h
  | some r => rfl

theorem startBlock_skip_of_ok (v : Vars) (l : List Char)
    (hok : (parseHeader l).isSome = true) : (startBlock v l).skip = false := by
  have ha := parseHeader_addrs_isSome l hok
  unfold startBlock
  cases hp : parseHeaderAddrs l with
  | none => rw [hp] at ha; simp at ha
  | some r => obtain ⟨a, b, c⟩ := r; rfl

theorem excl_sub_distinct (a b : Heap) (ha : a ∈ exclusiveHeaps)
    (hb : b ∈ dalvikSubHeaps) : b ≠ a := by
  fin_cases ha <;> fin_cases hb <;> decide

theorem finishBlock_at_which (stats : StatsMap) (v : Vars) (hskip : v.skip = false)
    (hsub : (v.whichHeap = Heap.HEAP_DALVIK ∨ v.whichHeap = Heap.HEAP_DALVIK_OTHER) →
      v.subHeap ≠ v.whichHeap) :
    (finishBlock stats v) v.whichHeap =
      addTo (stats v.whichHeap) v.pss
        (swappablePssOf v.is_swappable v.pss v.shared_clean v.shared_dirty
          v.private_clean v.private_dirty)
        v.private_dirty v.shared_dirty v.private_clean v.shared_clean := by
  unfold finishBlock
  simp only [hskip, Bool.false_eq_true, if_false]
  split
  next hd =>
    have hne : ¬ (v.whichHeap = v.subHeap) := fun he => (hsub hd) he.symm
    simp [accumulate, if_neg hne]
  next hd =>
    simp [accumulate]

/-- C10 (amended): the per-block statistic variables (size, resident,
pss, shared-clean, shared-dirty, private-clean, private-dirty,
referenced) are not reset between blocks: for every well-formed block
whose in-block lines omit one of the recognized keys, the value most
recently parsed for that key is carried over, and the carried values of
the five aggregated statistics (pss, shared/private clean/dirty) —
together with the swappable-pss derived from them — are what is added
into this block's category totals (size, resident and referenced are
parsed and carried but never aggregated). -/
theorem statvars_carryover (v : Vars) (stats : StatsMap) (l : List Char)
    (sls : List (List Char)) (v1 : Vars)
    (hok : (parseHeader (stripLast l)).isSome = true)
    (_hin : ∀ s ∈ sls, isStatLine s = true ∨ looksLikeHeader s = false)
    (hv1 : v1 = runLines (startBlock v (stripLast l)) sls) :
    ((∀ s ∈ sls, (scanKV sizeKey s).isNone = true) → v1.size = v.size) ∧
    ((∀ s ∈ sls, (scanKV rssKey s).isNone = true) → v1.resident = v.resident) ∧
    ((∀ s ∈ sls, (scanKV pssKey s).isNone = true) → v1.pss = v.pss) ∧
    ((∀ s ∈ sls, (scanKV sharedCleanKey s).isNone = true) →
      v1.shared_clean = v.shared_clean) ∧
    ((∀ s ∈ sls, (scanKV sharedDirtyKey s).isNone = true) →
      v1.shared_dirty = v.shared_dirty) ∧
    ((∀ s ∈ sls, (scanKV privateCleanKey s).isNone = true) →
      v1.private_clean = v.private_clean) ∧
    ((∀ s ∈ sls, (scanKV privateDirtyKey s).isNone = true) →
      v1.private_dirty = v.private_dirty) ∧
    ((∀ s ∈ sls, (scanKV referencedKey s).isNone = true) →
      v1.referenced = v.referenced) ∧
    (finishBlock stats v1) v1.whichHeap =
      addTo (stats v1.whichHeap) v1.pss
        (swappablePssOf v1.is_swappable v1.pss v1.shared_clean v1.shared_dirty
          v1.private_clean v1.private_dirty)
        v1.private_dirty v1.shared_dirty v1.private_clean v1.shared_clean := by
  subst hv1
  obtain ⟨n1, n2, n3, n4, n5, n6, n7, n8⟩ := startBlock_numeric v (stripLast l)
  obtain ⟨c1, c2, c3, c4⟩ := runLines_ctrl sls (startBlock v (stripLast l))
  refine ⟨?_, ?_, ?_, ?_, ?_, ?_, ?_, ?_, ?_⟩
  · intro hc
    rw [runLines_field (fun w => w.size) sizeKey
      (fun s w h => (applyStatLine_fields s w).1 h) sls _ hc, n1]
  · intro hc
    rw [runLines_field (fun w => w.resident) rssKey
      (fun s w h => (applyStatLine_fields s w).2.1 h) sls _ hc, n2]
  · intro hc
    rw [runLines_field (fun w => w.pss) pssKey
      (fun s w h => (applyStatLine_fields s w).2.2.1 h) sls _ hc, n3]
  · intro hc
    rw [runLines_field (fun w => w.shared_clean) sharedCleanKey
      (fun s w h => (applyStatLine_fields s w).2.2.2.1 h) sls _ hc, n4]
  · intro hc
    rw [runLines_field (fun w => w.shared_dirty) sharedDirtyKey
      (fun s w h => (applyStatLine_fields s w).2.2.2.2.1 h) sls _ hc, n5]
  · intro hc
    rw [runLines_field (fun w => w.private_clean) privateCleanKey
      (fun s w h => (applyStatLine_fields s w).2.2.2.2.2.1 h) sls _ hc, n6]
  · intro hc
    rw [runLines_field (fun w => w.private_dirty) privateDirtyKey
      (fun s w h => (applyStatLine_fields s w).2.2.2.2.2.2.1 h) sls _ hc, n7]
  · intro hc
    rw [runLines_field (fun w => w.referenced) referencedKey
      (fun s w h => (applyStatLine_fields s w).2.2.2.2.2.2.2 h) sls _ hc, n8]
  · have hskip : (runLines (startBlock v (stripLast l)) sls).skip = false :=
      c3.trans (startBlock_skip_of_ok v (stripLast l) hok)
    have hinv := startBlock_inv v (stripLast l)
    refine finishBlock_at_which stats _ hskip ?_
    rw [c1, c2]
    intro hd
    exact excl_sub_distinct _ _ hinv.1 (hinv.2 hd)

/-- C10 counterexample: the claim asserts that a carried `size` value is
"added into this block's category totals", but `size` (like `resident`
and `referenced`) is parsed and carried yet never aggregated: two runs
that differ only in the first block's `Size:` value — while the second
block omits `Size:` and therefore carries it — produce identical totals
in every one of the 21 aggregator slots. -/
theorem size_carryover_counterexample :
    sizeInputA ≠ sizeInputB ∧
    (noMalformed sizeInputA = true ∧ noMalformed sizeInputB = true) ∧
    allHeaps.map (read_mapinfo zeroStats sizeInputA) =
      allHeaps.map (read_mapinfo zeroStats sizeInputB) := by
  refine ⟨by decide, ⟨by decide, by decide⟩, by decide⟩

theorem statvars_carryover_witness :
    ((parseHeader (stripLast (ln "50000000-50100000 rw-p 00000000 00:00 0 [heap]\n"))).isSome
        = true ∧
      (∀ s ∈ [ln "Size:                 64 kB\n"],
        isStatLine s = true ∨ looksLikeHeader s = false) ∧
      runLines
          (startBlock { initVars with pss := 55, private_dirty := 44 }
            (stripLast (ln "50000000-50100000 rw-p 00000000 00:00 0 [heap]\n")))
          [ln "Size:                 64 kB\n"] =
        runLines
          (startBlock { initVars with pss := 55, private_dirty := 44 }
            (stripLast (ln "50000000-50100000 rw-p 00000000 00:00 0 [heap]\n")))
          [ln "Size:                 64 kB\n"]) ∧
    ((∀ s ∈ [ln "Size:                 64 kB\n"], (scanKV pssKey s).isNone = true) →
      (runLines
        (startBlock { initVars with pss := 55, private_dirty := 44 }
          (stripLast (ln "50000000-50100000 rw-p 00000000 00:00 0 [heap]\n")))
        [ln "Size:                 64 kB\n"]).pss =
      ({ initVars with pss := 55, private_dirty := 44 } : Vars).pss) :=
  ⟨⟨by decide, by decide, rfl⟩,
    (statvars_carryover { initVars with pss := 55, private_dirty := 44 } zeroStats
      (ln "50000000-50100000 rw-p 00000000 00:00 0 [heap]\n")
      [ln "Size:                 64 kB\n"] _ (by decide) (by decide) rfl).2.2.1⟩

theorem lexAux_zero (n : Nat) : ∀ (x y : List Int),
    (∀ a ∈ x, a = 0) → (∀ a ∈ y, a = 0) → lexAux x y n = 0 := by
  induction n with
  | zero => intro x y _ _; rfl
  | succ n ih =>
    intro x y hx hy
    have hx0 : x.headD 0 = 0 := by
      cases x with
      | nil => rfl
      | cons a t => exact hx a (List.mem_cons_self a t)
    have hy0 : y.headD 0 = 0 := by
      cases y with
      | nil => rfl
      | cons a t => exact hy a (List.mem_cons_self a t)
    simp only [lexAux, hx0, hy0, lt_irrefl, if_false]
    exact ih x.tail y.tail (fun a ha => hx a (List.mem_of_mem_tail ha))
      (fun a ha => hy a (List.mem_of_mem_tail ha))

theorem normZero_headD (b : List Int) : (normZero b).headD 0 = b.headD 0 := by
  cases b with
  | nil => rfl
  | cons a r =>
    by_cases hz : a = 0
    · subst hz
      simp [normZero, List.replicate_succ]
    · simp [normZero, hz]

theorem normZero_tail_allZero (b : List Int) (h : b.headD 0 = 0) :
    ∀ a ∈ (normZero b).tail, a = 0 := by
  cases b with
  | nil => intro a ha; simp [normZero] at ha
  | cons x r =>
    have hx : x = 0 := by simpa using h
    subst hx
    simp only [normZero, if_pos rfl, List.replicate_succ, List.tail_cons]
    intro a ha
    exact List.eq_of_mem_replicate ha

theorem normZero_tail (b : List Int) (h : ¬ b.headD 0 = 0) :
    (normZero b).tail = normZero b.tail := by
  cases b with
  | nil => simp at h
  | cons x r =>
    have hx : ¬ x = 0 := by simpa using h
    simp [normZero, hx]

theorem btCompareAux_lex (n : Nat) : ∀ (b1 b2 : List Int),
    btCompareAux b1 b2 n = lexAux (normZero b1) (normZero b2) n := by
  induction n with
  | zero => intro b1 b2; rfl
  | succ n ih =>
    intro b1 b2
    have h1 := normZero_headD b1
    have h2 := normZero_headD b2
    simp only [btCompareAux, lexAux, h1, h2]
    by_cases he : b1.headD 0 = b2.headD 0
    · have hn1 : ¬ b1.headD 0 < b2.headD 0 := by omega
      have hn2 : ¬ b2.headD 0 < b1.headD 0 := by omega
      simp only [if_pos he, if_neg hn1, if_neg hn2]
      by_cases hz : b1.headD 0 = 0
      · simp only [if_pos hz]
        exact (lexAux_zero n _ _ (normZero_tail_allZero b1 hz)
          (normZero_tail_allZero b2 (by rw [← he]; exact hz))).symm
      · have hz2 : ¬ b2.headD 0 = 0 := fun hc => hz (he.trans hc)
        simp only [if_neg hz, normZero_tail b1 hz, normZero_tail b2 hz2]
        exact ih b1.tail b2.tail
    · simp only [if_neg he]
      rcases lt_trichotomy (b1.headD 0) (b2.headD 0) with hlt | heq | hgt
      · simp only [if_pos hlt]
      · exact absurd heq he
      · have hn : ¬ b1.headD 0 < b2.headD 0 := by omega
        simp only [if_neg hn, if_pos hgt]

/-- C6: for equal-size records the comparator is exactly the
lexicographic ascending comparison of the two 32-slot backtrace
sequences with everything after the first zero entry treated as
end-of-stack (zeroed out); in particular, with equal sizes, the record
with backtrace `[1,2,0]` sorts before the record with backtrace
`[1,3,0]` (comparator value `-1`). -/
theorem compareHeapRecords_tiebreak :
    (∀ r1 r2 : HeapRecord, r1.size = r2.size →
      compareHeapRecords r1 r2 = lexCmp32 (normZero r1.bt) (normZero r2.bt)) ∧
    compareHeapRecords ⟨100, 1, [1, 2, 0]⟩ ⟨100, 1, [1, 3, 0]⟩ = -1 := by
  constructor
  · intro r1 r2 hsize
    unfold compareHeapRecords lexCmp32
    rw [hsize, if_neg (lt_irrefl _), if_neg (lt_irrefl _)]
    exact btCompareAux_lex BACKTRACE_SIZE r1.bt r2.bt
  · decide

theorem compareHeapRecords_tiebreak_witness :
    (HeapRecord.mk 100 1 [1, 2, 0]).size = (HeapRecord.mk 100 1 [1, 3, 0]).size ∧
    compareHeapRecords ⟨100, 1, [1, 2, 0]⟩ ⟨100, 1, [1, 3, 0]⟩ =
      lexCmp32 (normZero [1, 2, 0]) (normZero [1, 3, 0]) :=
  ⟨rfl, compareHeapRecords_tiebreak.1 ⟨100, 1, [1, 2, 0]⟩ ⟨100, 1, [1, 3, 0]⟩ rfl⟩

/-- C3 counterexample: the comparator compares *raw* sizes — the zygote
flag bit is not cleared before the numeric comparison.  Records with
flag-cleared sizes 50 (flag set) and 100 (flag clear) order with the
flagged record first: the claim demands the comparator return `-1`
(cleared 100 before cleared 50), but it returns `1`. -/
theorem compareHeapRecords_flag_counterexample :
    zygoteCleared (2 ^ 31 + 50) < zygoteCleared 100 ∧
    zygoteFlag (2 ^ 31 + 50) = true ∧ zygoteFlag 100 = false ∧
    compareHeapRecords ⟨100, 1, []⟩ ⟨2 ^ 31 + 50, 2, []⟩ = 1 ∧
    ¬ compareHeapRecords ⟨100, 1, []⟩ ⟨2 ^ 31 + 50, 2, []⟩ = -1 := by
  refine ⟨by decide, by decide, by decide, by decide, by decide⟩

/-- C3 (amended): the comparator orders records primarily by the *raw*
size field, flag bit included, descending: for every pair of records
whose raw sizes differ, the record with the larger raw size sorts
first. -/
theorem compareHeapRecords_rawsize_desc (r1 r2 : HeapRecord)
    (h : r2.size < r1.size) :
    compareHeapRecords r1 r2 = -1 ∧ compareHeapRecords r2 r1 = 1 := by
  unfold compareHeapRecords
  constructor
  · rw [if_neg (by omega), if_pos h]
  · rw [if_pos h]

theorem compareHeapRecords_rawsize_desc_witness :
    (HeapRecord.mk 100 1 []).size < (HeapRecord.mk ((2 : Nat) ^ 31 + 50) 2 []).size ∧
    (compareHeapRecords ⟨2 ^ 31 + 50, 2, []⟩ ⟨100, 1, []⟩ = -1 ∧
      compareHeapRecords ⟨100, 1, []⟩ ⟨2 ^ 31 + 50, 2, []⟩ = 1) :=
  ⟨by decide, compareHeapRecords_rawsize_desc ⟨2 ^ 31 + 50, 2, []⟩ ⟨100, 1, []⟩ (by decide)⟩

theorem swappablePssOf_false (pss sc sd pc pd : Nat) :
    swappablePssOf false pss sc sd pc pd = 0 := by
  simp [swappablePssOf]

theorem accumulate_swappable_zero (stats : StatsMap) (hp : Heap) (a c d e f : Nat)
    (h : Heap) :
    ((accumulate stats hp a 0 c d e f) h).swappablePss = (stats h).swappablePss := by
  unfold accumulate
  split
  next heq => simp [addTo]
  next => rfl

/-- C2 counterexample: the swappable-pss computation divides with
truncating unsigned integer division before scaling, so it differs from
the claimed formula read with exact (rational) division: at
`pss = 10, sharedClean = 3, sharedDirty = 0, privateClean = 0,
privateDirty = 0` the code adds 9 while the claimed formula gives 10.
Moreover the subtraction is unsigned: at `pss = 1, privateClean = 2` it
wraps modulo `2 ^ 32` (the model's exact value is 0, and the real float
path leaves the exact range entirely), so even an integer-division
reading over truncated natural subtraction (value 2) fails — which
forces restricting the amended formula to
`privateClean + privateDirty ≤ pss`. -/
theorem swappablePss_formula_counterexample :
    swappablePssOf true 10 3 0 0 0 = 9 ∧
    swappablePssClaim true 10 3 0 0 0 = 10 ∧
    ¬ ((swappablePssOf true 10 3 0 0 0 : ℚ) = swappablePssClaim true 10 3 0 0 0) ∧
    ((finishBlock zeroStats soBlockVars10) Heap.HEAP_SO).swappablePss = 9 ∧
    swappablePssOf true 1 2 0 2 0 = 0 ∧
    ¬ swappablePssOf true 1 2 0 2 0 = ((1 - 2 - 0 : Nat) / (2 + 0)) * 2 + 2 := by
  refine ⟨by decide, by norm_num [swappablePssClaim], ?_, by decide, by decide, by decide⟩
  intro hc
  rw [show swappablePssOf true 10 3 0 0 0 = 9 from by decide] at hc
  rw [show swappablePssClaim true 10 3 0 0 0 = 10 from by norm_num [swappablePssClaim]] at hc
  norm_num at hc

/-- C2 (amended): for every completed mapping block whose statistics
lie in the float-exact range `privateClean + privateDirty ≤ pss <
2 ^ 24` (there every intermediate of the C float path is bounded by
`pss` and hence exactly representable; outside it the unsigned
subtraction wraps and the `float` rounds), the swappable-pss metric
added to the totals equals `sharing * sharedClean + privateClean` where
`sharing = (pss − privateClean − privateDirty) / (sharedClean +
sharedDirty)` computed with *truncating unsigned integer division* when
`sharedClean + sharedDirty > 0` and `sharing = 0` otherwise, gated as
before on the swappable type and `pss > 0`. -/
theorem swappablePss_amended_thm (stats : StatsMap) (v : Vars)
    (hskip : v.skip = false)
    (hsub : (v.whichHeap = Heap.HEAP_DALVIK ∨ v.whichHeap = Heap.HEAP_DALVIK_OTHER) →
      v.subHeap ≠ v.whichHeap)
    (hle : v.private_clean + v.private_dirty ≤ v.pss)
    (hlt : v.pss < 2 ^ 24) :
    ((finishBlock stats v) v.whichHeap).swappablePss
      = (stats v.whichHeap).swappablePss
        + swappablePssAmended v.is_swappable v.pss v.shared_clean v.shared_dirty
            v.private_clean v.private_dirty := by
  rw [finishBlock_at_which stats v hskip hsub]
  simp only [addTo]
  congr 1
  unfold swappablePssOf swappablePssAmended
  have hmod : ((((v.pss : Int) - (v.private_clean : Int) - (v.private_dirty : Int)) %
      (2 ^ 32)).toNat = v.pss - v.private_clean - v.private_dirty) := by
    rw [show ((2 : Int) ^ 32) = 4294967296 from by norm_num]
    rw [show ((2 : Nat) ^ 24) = 16777216 from by norm_num] at hlt
    omega
  by_cases hcond : v.is_swappable = true ∧ 0 < v.pss
  · simp only [if_pos hcond]
    by_cases hsh : 0 < v.shared_clean ∨ 0 < v.shared_dirty
    · have hsh' : 0 < v.shared_clean + v.shared_dirty := by omega
      simp only [if_pos hsh, if_pos hsh', hmod]
    · have hsh' : ¬ 0 < v.shared_clean + v.shared_dirty := by omega
      simp only [if_neg hsh, if_neg hsh']
  · simp only [if_neg hcond]

theorem swappablePss_amended_witness :
    (soBlockVars.skip = false ∧
      ((soBlockVars.whichHeap = Heap.HEAP_DALVIK ∨
          soBlockVars.whichHeap = Heap.HEAP_DALVIK_OTHER) →
        soBlockVars.subHeap ≠ soBlockVars.whichHeap) ∧
      soBlockVars.private_clean + soBlockVars.private_dirty ≤ soBlockVars.pss ∧
      soBlockVars.pss < 2 ^ 24) ∧
    ((finishBlock zeroStats soBlockVars) Heap.HEAP_SO).swappablePss
      = (zeroStats Heap.HEAP_SO).swappablePss
        + swappablePssAmended soBlockVars.is_swappable soBlockVars.pss
            soBlockVars.shared_clean soBlockVars.shared_dirty
            soBlockVars.private_clean soBlockVars.private_dirty :=
  ⟨⟨by decide, by decide, by decide, by decide⟩,
    swappablePss_amended_thm zeroStats soBlockVars
      (by decide) (by decide) (by decide) (by decide)⟩

/-- C4: in `getPssPid`, for every line that begins with `'P'` but not
with `"Pss:"`, the condition `strncmp(line, "Private_Clean:", 14) ||
strncmp(line, "Private_Dirty:", 14)` — raw `strncmp` results (zero on
match) joined with `||` — evaluates to true, because the two prefixes
can never match simultaneously; so the uss total accumulates the first
number found after column 14 of that line regardless of whether the line
begins with either prefix. -/
theorem getPss_private_disjunction (l : List Char) (pss uss : Nat)
    (hP : l.headD (Char.ofNat 0) = 'P')
    (hnot : pssHdr.isPrefixOf l = false) :
    ((!(privateCleanHdr.isPrefixOf l) || !(privateDirtyHdr.isPrefixOf l)) = true) ∧
    getPssLineStep l pss uss = (pss, uss + atoiSkip (l.drop 14)) := by
  have hd : (!(privateCleanHdr.isPrefixOf l) || !(privateDirtyHdr.isPrefixOf l)) = true := by
    by_cases h1 : privateCleanHdr.isPrefixOf l
    · by_cases h2 : privateDirtyHdr.isPrefixOf l
      · exfalso
        have p1 := List.prefix_iff_eq_take.mp (List.isPrefixOf_iff_prefix.mp h1)
        have p2 := List.prefix_iff_eq_take.mp (List.isPrefixOf_iff_prefix.mp h2)
        have hlen : privateCleanHdr.length = privateDirtyHdr.length := by decide
        rw [hlen] at p1
        exact absurd (p1.trans p2.symm) (by decide)
      · simp [h2]
    · simp [h1]
  refine ⟨hd, ?_⟩
  unfold getPssLineStep
  rw [if_pos hP, if_neg (by rw [hnot]; exact Bool.false_ne_true), if_pos hd]

theorem getPss_private_disjunction_witness :
    ((ln "Private_Foo:  7 kB\n").headD (Char.ofNat 0) = 'P' ∧
      pssHdr.isPrefixOf (ln "Private_Foo:  7 kB\n") = false) ∧
    (((!(privateCleanHdr.isPrefixOf (ln "Private_Foo:  7 kB\n"))
        || !(privateDirtyHdr.isPrefixOf (ln "Private_Foo:  7 kB\n"))) = true) ∧
      getPssLineStep (ln "Private_Foo:  7 kB\n") 3 4 =
        (3, 4 + atoiSkip ((ln "Private_Foo:  7 kB\n").drop 14))) :=
  ⟨⟨by decide, by decide⟩,
    getPss_private_disjunction (ln "Private_Foo:  7 kB\n") 3 4 (by decide) (by decide)⟩

/-- C7: the mapping block named `/system/lib/libfoo.so` with Pss=100,
Private_Clean=20, Private_Dirty=10, Shared_Clean=50, Shared_Dirty=20
classifies as `HEAP_SO` (swappable), and parsing that block adds
swappable-pss 70 — and exactly the five parsed metrics — into the
`HEAP_SO` totals. -/
theorem libfoo_classification :
    classify (ln "/system/lib/libfoo.so") 0 0 Heap.HEAP_UNKNOWN =
      (Heap.HEAP_SO, Heap.HEAP_UNKNOWN, true) ∧
    (read_mapinfo zeroStats libfooInput) Heap.HEAP_SO =
      { pss := 100, swappablePss := 70, privateDirty := 10, sharedDirty := 20,
        privateClean := 20, sharedClean := 50 } := by
  exact ⟨by decide, by decide⟩

/-- C8: when no allocation-record data is supplied (`info == NULL`), the
report renderer emits exactly the four guidance lines describing how to
enable allocation tracking and stops: no report header, no per-record
lines, and no mapping listing. -/
theorem dumpNativeHeap_disabled (totalMemory backtraceSize : Nat)
    (maps : Option (List (List Char))) :
    dumpNativeHeap none totalMemory backtraceSize maps =
      [DumpLine.guidance1, DumpLine.guidance2, DumpLine.guidance3,
       DumpLine.guidance4] := rfl

/-- C9: every mapping whose name begins with `[heap]` classifies as
`HEAP_NATIVE` with the swappable flag off, and a non-swappable block
adds swappable-pss 0 — for every combination of statistic values the
swappable-pss running total of every category is left unchanged. -/
theorem heap_native_no_swappable :
    (∀ (name : List Char) (start prevEnd : Nat) (prevHeap : Heap),
      (ln "[heap]").isPrefixOf name = true →
      classify name start prevEnd prevHeap =
        (Heap.HEAP_NATIVE, Heap.HEAP_UNKNOWN, false)) ∧
    (∀ pss sc sd pc pd : Nat, swappablePssOf false pss sc sd pc pd = 0) ∧
    (∀ (stats : StatsMap) (v : Vars) (h : Heap), v.is_swappable = false →
      ((finishBlock stats v) h).swappablePss = (stats h).swappablePss) := by
  refine ⟨?_, ?_, ?_⟩
  · intro name start prevEnd prevHeap hpre
    unfold classify
    rw [if_pos hpre]
  · intro pss sc sd pc pd
    exact swappablePssOf_false pss sc sd pc pd
  · intro stats v h hsw
    unfold finishBlock
    by_cases hs : v.skip
    · simp [hs]
    · simp only [Bool.not_eq_true] at hs
      simp only [hs, Bool.false_eq_true, if_false, hsw, swappablePssOf_false]
      split
      next => rw [accumulate_swappable_zero, accumulate_swappable_zero]
      next => rw [accumulate_swappable_zero]

theorem heap_native_no_swappable_witness :
    ((ln "[heap]").isPrefixOf (ln "[heap] junk") = true ∧
      (initVars.is_swappable = false)) ∧
    (classify (ln "[heap] junk") 0 0 Heap.HEAP_UNKNOWN =
        (Heap.HEAP_NATIVE, Heap.HEAP_UNKNOWN, false) ∧
      swappablePssOf false 9 8 7 6 5 = 0 ∧
      ((finishBlock zeroStats initVars) Heap.HEAP_NATIVE).swappablePss =
        (zeroStats Heap.HEAP_NATIVE).swappablePss) :=
  ⟨⟨by decide, rfl⟩,
    heap_native_no_swappable.1 (ln "[heap] junk") 0 0 Heap.HEAP_UNKNOWN (by decide),
    heap_native_no_swappable.2.1 9 8 7 6 5,
    heap_native_no_swappable.2.2 zeroStats initVars Heap.HEAP_NATIVE rfl⟩
